import Mathlib

/-!
Verification of the CSV sales-ingestion core (`data_ingestion.py`,
`connection.py`, `ai_agents.py`) against its natural-language specification.

Python strings in the pipeline are ASCII; we embed them as lists of byte
values (`PyStr`), so the case-folding operations of `str.lower`, `str.title`,
`str.strip` become plain arithmetic on `Nat`.
-/

/-- A Python string, embedded as its list of character codes (ASCII). -/
abbrev PyStr := List Nat

/-- Literal helper: the byte encoding of a Lean string literal. -/
def txt (s : String) : PyStr := s.toList.map Char.toNat

/-- Python `str.isspace` on one character (the whitespace set stripped by
`str.strip()`): space, \t, \n, \r, \v, \f. -/
def isSpaceByte (c : Nat) : Bool :=
  c == 32 || c == 9 || c == 10 || c == 13 || c == 11 || c == 12

/-- ASCII lower-casing of one character, as Python `str.lower` does per char. -/
def lowerByte (c : Nat) : Nat :=
  if 65 ≤ c ∧ c ≤ 90 then c + 32 else c

/-- ASCII upper-casing of one character. -/
def upperByte (c : Nat) : Nat :=
  if 97 ≤ c ∧ c ≤ 122 then c - 32 else c

/-- ASCII letter test; for ASCII these are exactly Python's cased characters,
which drive `str.title`'s word-boundary logic. -/
def isAlphaByte (c : Nat) : Bool :=
  (65 ≤ c && c ≤ 90) || (97 ≤ c && c ≤ 122)

/-- Python `str.lower`. -/
def pyLower (s : PyStr) : PyStr := s.map lowerByte

/-- Python `str.strip()` (no arguments): remove leading and trailing
whitespace. -/
def pyStrip (s : PyStr) : PyStr :=
  ((s.dropWhile isSpaceByte).reverse.dropWhile isSpaceByte).reverse

/-- Helper for `pyTitle`: `prev` records whether the previous character was
cased (a letter).  Python `str.title` upper-cases a letter that follows a
non-cased character and lower-cases every other letter. -/
def pyTitleAux (prev : Bool) : PyStr → PyStr
  | [] => []
  | c :: rest =>
    if isAlphaByte c then
      (if prev then lowerByte c else upperByte c) :: pyTitleAux true rest
    else
      c :: pyTitleAux false rest

/-- Python `str.title`. -/
def pyTitle (s : PyStr) : PyStr := pyTitleAux false s

/-! ### Categorical normalization (`DataProcessor._process_categorical_smart`)

Source: for each categorical column the cell is sent through
`.astype(str).str.strip().str.title()` and then the title-cased spellings of
the null tokens are replaced by the literal `"Unknown"`. -/

/-- The `null_patterns` list of the source, verbatim. -/
def nullPatterns : List PyStr :=
  [txt "nan", txt "null", txt "none", txt "", txt "n/a", txt "na"]

/-- One cell of `_process_categorical_smart`: strip, title-case, then replace
any title-cased null pattern with "Unknown" (the replace dict is keyed by
`pattern.title()` exactly as in the source). -/
def processCategoricalCell (cell : PyStr) : PyStr :=
  let s := pyTitle (pyStrip cell)
  if s ∈ nullPatterns.map pyTitle then txt "Unknown" else s

example : processCategoricalCell (txt "  n/A ") = txt "Unknown" := by decide
example : processCategoricalCell (txt "widget x") = txt "Widget X" := by decide
example : processCategoricalCell (txt "NULL") = txt "Unknown" := by decide

/-! ### Column resolution (`DataProcessor._read_and_clean_csv_dynamic`)

Source: headers are cleaned by
`str.lower().str.strip().str.replace(" ", "_").str.replace("[^a-z0-9_]", "", regex=True)`
and then matched against `self.column_mappings` by the double loop

    for target_col, possible_names in self.column_mappings.items():
        for col in df.columns:
            if any(possible in col for possible in possible_names):
                mapped_columns[col] = target_col
                break
-/

/-- Does `p` occur at the start of `s`? (helper for Python's `in`). -/
def prefOf : PyStr → PyStr → Bool
  | [], _ => true
  | _ :: _, [] => false
  | a :: p, b :: s => a == b && prefOf p s

/-- Python's substring test `p in s`. -/
def subOf (p : PyStr) : PyStr → Bool
  | [] => prefOf p []
  | c :: s => prefOf p (c :: s) || subOf p s

/-- Header cleaning: lower-case, strip, spaces to underscores, drop every
character outside `[a-z0-9_]` (source order of the four pandas calls). -/
def cleanHeader (h : PyStr) : PyStr :=
  ((pyStrip (pyLower h)).map (fun c => if c == 32 then 95 else c)).filter
    (fun c => (97 ≤ c && c ≤ 122) || (48 ≤ c && c ≤ 57) || c == 95)

/-- `DataProcessor.column_mappings`: the six canonical fields in declared
order, each with its declared synonym list. -/
def columnMappings : List (PyStr × List PyStr) :=
  [ (txt "date",
      [txt "date", txt "order_date", txt "transaction_date", txt "sale_date",
       txt "created_date", txt "timestamp"]),
    (txt "sales_amount",
      [txt "sales_amount", txt "revenue", txt "amount", txt "total_sales",
       txt "value", txt "price", txt "cost", txt "sales", txt "total_amount"]),
    (txt "product",
      [txt "product", txt "item", txt "sku", txt "product_name",
       txt "item_name", txt "product_id", txt "name"]),
    (txt "category",
      [txt "category", txt "product_category", txt "type", txt "group",
       txt "segment", txt "class"]),
    (txt "quantity",
      [txt "quantity", txt "qty", txt "units", txt "orders", txt "count",
       txt "volume", txt "items"]),
    (txt "region",
      [txt "region", txt "location", txt "market", txt "area",
       txt "territory", txt "country", txt "state", txt "city"]) ]

/-- `any(possible in col for possible in possible_names)`. -/
def anySyn (names : List PyStr) (col : PyStr) : Bool :=
  names.any (fun n => subOf n col)

/-- The inner `for col in df.columns: ... break` loop: the first column that
matches any synonym of the field. -/
def firstMatch (names : List PyStr) : List PyStr → Option PyStr
  | [] => none
  | c :: cols => if anySyn names c then some c else firstMatch names cols

/-- Python dict assignment `d[k] = v`: overwrite in place if the key exists,
else append. -/
def dictInsert (k v : PyStr) : List (PyStr × PyStr) → List (PyStr × PyStr)
  | [] => [(k, v)]
  | (k', v') :: d => if k' == k then (k, v) :: d else (k', v') :: dictInsert k v d

/-- Association-list lookup (Python `d.get(k)` / `k in d`). -/
def dictFind (k : PyStr) : List (PyStr × PyStr) → Option PyStr
  | [] => none
  | (k', v') :: d => if k' == k then some v' else dictFind k d

/-- One iteration of the outer loop over `column_mappings`. -/
def assignField (cols : List PyStr) (d : List (PyStr × PyStr))
    (entry : PyStr × List PyStr) : List (PyStr × PyStr) :=
  match firstMatch entry.2 cols with
  | some col => dictInsert col entry.1 d
  | none => d

/-- The complete `mapped_columns` dictionary produced by the double loop,
for an already-cleaned column list. -/
def mappedColumns (cols : List PyStr) : List (PyStr × PyStr) :=
  columnMappings.foldl (assignField cols) []

/-- Reference description of the mapping that the code actually computes:
scanning `column_mappings` from the last entry to the first, a column `h` is
assigned field `f` when `h` is the first column matching one of the synonyms
of `f`, and no later field also claims `h` (last write to the Python dict
wins).  Written from the amended claim wording, to be compared with
`mappedColumns`. -/
def lastAssign (cols : List PyStr) (h : PyStr) :
    List (PyStr × List PyStr) → Option PyStr
  | [] => none
  | entry :: rest =>
    match lastAssign cols h rest with
    | some f => some f
    | none => if firstMatch entry.2 cols == some h then some entry.1 else none

/-- The claim's own description of header assignment: the first canonical
field, in declared order, any of whose synonyms is a substring of the
normalized header.  Written from the claim wording, to be compared with
`mappedColumns`. -/
def specFirstField (h : PyStr) : Option PyStr :=
  match columnMappings.find? (fun entry => anySyn entry.2 h) with
  | some entry => some entry.1
  | none => none

example : cleanHeader (txt " Order Date") = txt "order_date" := by decide
example : dictFind (txt "order_date") (mappedColumns [txt "order_date", txt "sku"])
    = some (txt "date") := by decide
example : dictFind (txt "sku") (mappedColumns [txt "order_date", txt "sku"])
    = some (txt "product") := by decide

/-! ### Numeric normalization (`DataProcessor._convert_numerics_smart`)

Source for `sales_amount`: `pd.to_numeric(..., errors="coerce")` (we embed the
parse outcome of each cell as an `Option ℚ`, `none` = NaN), then

    q99 = df["sales_amount"].quantile(0.99)
    df.loc[df["sales_amount"] > q99 * 3, "sales_amount"] = q99
    df["sales_amount"] = df["sales_amount"].fillna(0)
-/

/-- Insert into an ascending-sorted list (helper for the quantile sort). -/
def insAsc (x : ℚ) : List ℚ → List ℚ
  | [] => [x]
  | y :: ys => if x ≤ y then x :: y :: ys else y :: insAsc x ys

/-- Ascending insertion sort. -/
def sortAsc (l : List ℚ) : List ℚ := l.foldr insAsc []

/-- `Series.quantile(q)` with pandas' default linear interpolation over the
non-NaN values `vals` (ignores NaN; `vals` is assumed nonempty as in the
guarded source): sort ascending, take `h = q * (n - 1)`, and interpolate
between the two neighbouring order statistics. -/
def pandasQuantile (q : ℚ) (vals : List ℚ) : ℚ :=
  let s := sortAsc vals
  let n := s.length
  let h : ℚ := q * ((n : ℚ) - 1)
  let i : ℕ := (⌊h⌋).toNat
  let lo := s.getD i 0
  let hi := s.getD (i + 1) lo
  lo + (h - (i : ℚ)) * (hi - lo)

/-- The 99th percentile of the parseable amounts of a batch (pre-cap). -/
def preCapQ99 (xs : List (Option ℚ)) : ℚ :=
  pandasQuantile (99 / 100) (xs.filterMap id)

/-- `_convert_numerics_smart` on the `sales_amount` column: with at least one
parseable value, cap every value above `q99 * 3` to `q99`, then `fillna(0)`.
With no parseable value the capping block is skipped and `fillna(0)` maps
every cell to 0. -/
def capAmounts (xs : List (Option ℚ)) : List ℚ :=
  if (xs.filterMap id).length > 0 then
    let q99 := preCapQ99 xs
    (xs.map (fun o => o.map (fun v => if v > q99 * 3 then q99 else v))).map
      (fun o => o.getD 0)
  else
    xs.map (fun o => o.getD 0)

/-- The `outliers` count recorded as `sales_amount_outliers_capped`. -/
def cappedTally (xs : List (Option ℚ)) : Nat :=
  let q99 := preCapQ99 xs
  (xs.filterMap id).countP (fun v => v > q99 * 3)

example : pandasQuantile (99 / 100) [1, 2] = 199 / 100 := by
  norm_num [pandasQuantile, sortAsc, insAsc]
example : capAmounts [some 1, none, some 2] = [1, 0, 2] := by
  norm_num [capAmounts, preCapQ99, pandasQuantile, sortAsc, insAsc,
    List.filterMap_cons]

/-! ### Quality filtering (`DataProcessor._apply_quality_filters`)

We model the normalized table as a list of canonical rows with the canonical
columns present (the claim's "normalized row set"); amounts at this point of
the pipeline have already been through `fillna(0)`, so they are plain
rationals. -/

/-- One canonical row of the normalized table. -/
structure Row where
  date : Option Nat
  product : PyStr
  category : PyStr
  amount : ℚ
  quantity : Int
  region : PyStr
deriving DecidableEq

/-- `df["product"].isin(["Unknown", "", "Nan", "None"])` on one row. -/
def invalidProduct (r : Row) : Bool :=
  r.product == txt "Unknown" || r.product == txt "" ||
  r.product == txt "Nan" || r.product == txt "None"

/-- Step 1 of `_apply_quality_filters`: keep rows unless the product is an
invalid token AND the amount is zero (`completely_invalid`; the `isna` half of
`zero_sales` cannot fire after `fillna(0)`). -/
def dropInvalidRows (rows : List Row) : List Row :=
  rows.filter (fun r => !(invalidProduct r && r.amount == 0))

/-- `df.duplicated()` marks, with `seen` the rows already scanned: the list of
rows that equal an earlier row. -/
def dupMarkTally (seen : List Row) : List Row → Nat
  | [] => 0
  | r :: rest =>
    if r ∈ seen then 1 + dupMarkTally seen rest
    else dupMarkTally (r :: seen) rest

/-- `df.drop_duplicates()`: keep the first occurrence of each full row. -/
def dedupRows (seen : List Row) : List Row → List Row
  | [] => []
  | r :: rest =>
    if r ∈ seen then dedupRows seen rest else r :: dedupRows (r :: seen) rest

/-- Step 2 of `_apply_quality_filters` exactly as guarded in the source:
only when more than one row remains and at least one duplicate was marked. -/
def dropDuplicateRows (rows : List Row) : List Row :=
  if rows.length > 1 then
    if dupMarkTally [] rows > 0 then dedupRows [] rows else rows
  else rows

/-- Step 3 of `_apply_quality_filters` exactly as guarded in the source: only
when more than 10 rows remain, drop rows whose amount exceeds five times the
99.9th percentile of the remaining amounts. -/
def dropExtremeRows (rows : List Row) : List Row :=
  if rows.length > 10 then
    let q999 := pandasQuantile (999 / 1000) (rows.map Row.amount)
    if (rows.countP (fun r => r.amount > q999 * 5)) > 0 then
      rows.filter (fun r => r.amount ≤ q999 * 5)
    else rows
  else rows

/-- `DataProcessor._apply_quality_filters`: the three steps in source order. -/
def applyQualityFilters (rows : List Row) : List Row :=
  dropExtremeRows (dropDuplicateRows (dropInvalidRows rows))

/-- The claim's description of the three quality-filter steps: (1) drop rows
with product "Unknown" and amount exactly 0, (2) drop exact full-row
duplicates, (3) drop rows whose amount exceeds five times the 99.9th
percentile of the batch, each step unconditional.  Written from the claim
wording, to be compared with `applyQualityFilters`. -/
def qualityFiltersSpec (rows : List Row) : List Row :=
  let s1 := rows.filter (fun r => !(r.product == txt "Unknown" && r.amount == 0))
  let s2 := dedupRows [] s1
  let q999 := pandasQuantile (999 / 1000) (s2.map Row.amount)
  s2.filter (fun r => r.amount ≤ q999 * 5)

/-- The amended description: identical to the claim's, except that the
extreme-outlier step only runs when more than 10 rows survive steps 1 and 2.
Written from the amended claim wording, to be compared with
`applyQualityFilters`. -/
def qualityFiltersAmended (rows : List Row) : List Row :=
  let s1 := rows.filter (fun r => !(r.product == txt "Unknown" && r.amount == 0))
  let s2 := dedupRows [] s1
  if s2.length > 10 then
    let q999 := pandasQuantile (999 / 1000) (s2.map Row.amount)
    s2.filter (fun r => r.amount ≤ q999 * 5)
  else s2

/-! ### Top products (`Database.get_enhanced_summary`, memory path)

Source:

    product_sales[product] = product_sales.get(product, 0) + float(...)
    top_products = sorted([...], key=lambda x: x["total_sales"], reverse=True)[:5]

A Python dict keeps keys in insertion order, and `sorted` is stable, so ties
keep the insertion order of each product's first occurrence. -/

/-- `product_sales.get(p, 0) + a` followed by `product_sales[p] = ...`: add
`a` to the running total of `p`, appending a fresh key at the end. -/
def bumpSale (p : PyStr) (a : ℚ) : List (PyStr × ℚ) → List (PyStr × ℚ)
  | [] => [(p, a)]
  | (k, s) :: d => if k == p then (k, s + a) :: d else (k, s) :: bumpSale p a d

/-- The `product_sales` dict accumulated over the stored rows, keys in
first-occurrence order. -/
def productSales (data : List Row) : List (PyStr × ℚ) :=
  data.foldl (fun d r => bumpSale r.product r.amount d) []

/-- Stable descending insertion by summed amount: an element is placed before
the first existing element whose total it is greater than or equal to, so the
elements processed later (which `foldr` puts in first) stay behind equals. -/
def insDesc (x : PyStr × ℚ) : List (PyStr × ℚ) → List (PyStr × ℚ)
  | [] => [x]
  | y :: ys => if x.2 ≥ y.2 then x :: y :: ys else y :: insDesc x ys

/-- Python's stable `sorted(..., key=total_sales, reverse=True)`. -/
def sortSalesDesc (l : List (PyStr × ℚ)) : List (PyStr × ℚ) := l.foldr insDesc []

/-- `top_products`: sorted descending by summed amount, first five. -/
def topProducts (data : List Row) : List (PyStr × ℚ) :=
  (sortSalesDesc (productSales data)).take 5

/-- Index of the first row carrying product `p` (insertion order of the
product's first occurrence). -/
def firstOccur (data : List Row) (p : PyStr) : Nat :=
  data.findIdx (fun r => r.product == p)

/-- Key column of the `product_sales` dict. -/
def keysOf (d : List (PyStr × ℚ)) : List PyStr := d.map Prod.fst

/-- Distinct values in first-occurrence order. -/
def seenFold (seen : List PyStr) : List PyStr → List PyStr
  | [] => seen
  | p :: ps => if p ∈ seen then seenFold seen ps else seenFold (seen ++ [p]) ps

/-- The distinct-product tally of a row set. -/
def distinctProducts (data : List Row) : Nat :=
  (seenFold [] (data.map Row.product)).length

/-! ### Format sniffing (`DataProcessor._read_and_clean_csv_dynamic`, head)

Source: nested loops over `encoding_options` and `separator_options`; for
each pair a 5-row trial parse, and if it yields more than one column, a full
parse that is accepted (`break`); any exception continues with the next pair.
Pandas itself is the external collaborator: we abstract the trial parse as
`pp enc sep : Option Nat` (the column tally, `none` = exception) and the full
parse as `pf enc sep : Option (List Row)` (`none` = exception). -/

def encodingOptions : List PyStr := [txt "utf-8", txt "latin-1", txt "cp1252"]

def separatorOptions : List PyStr := [txt ",", txt ";", txt "\t", txt "|"]

/-- The inner `for sep in separator_options` loop for one encoding; `α` is
the raw parsed table pandas hands back. -/
def sniffSeps {α : Type} (pp : PyStr → PyStr → Option Nat)
    (pf : PyStr → PyStr → Option α) (e : PyStr) :
    List PyStr → Option α
  | [] => none
  | s :: rest =>
    match pp e s with
    | some cols =>
      if cols > 1 then
        match pf e s with
        | some t => some t
        | none => sniffSeps pp pf e rest
      else sniffSeps pp pf e rest
    | none => sniffSeps pp pf e rest

/-- The outer `for encoding in encoding_options` loop. -/
def sniffEncs {α : Type} (pp : PyStr → PyStr → Option Nat)
    (pf : PyStr → PyStr → Option α) :
    List PyStr → List PyStr → Option α
  | [], _ => none
  | e :: rest, seps =>
    match sniffSeps pp pf e seps with
    | some t => some t
    | none => sniffEncs pp pf rest seps

/-- The whole sniffing phase; `none` models the
`raise ValueError("Could not parse CSV file with standard formats")`. -/
def sniffCsv {α : Type} (pp : PyStr → PyStr → Option Nat)
    (pf : PyStr → PyStr → Option α) : Option α :=
  sniffEncs pp pf encodingOptions separatorOptions

/-! ### Ingestion flow (`DataProcessor.process_csv`), memory storage

`Database` with `use_memory = True`: `check_file_duplicate` tests membership
of the hash in the `file_hashes` set, `record_file_upload` appends an upload
record and adds the hash, `insert_sales_data_batch` appends the rows and
returns their number.  SHA-256 hashing of the file bytes and the whole
read-and-clean pipeline are abstracted as function parameters `hashF` and
`readClean` (`none` = the pipeline raised; `process_csv` then answers with
the error response). -/

/-- One entry of `memory_storage["file_uploads"]`. -/
structure UploadRec where
  id : Nat
  userId : Option Nat
  fileHash : PyStr
  filename : PyStr
  recordTally : Nat
deriving DecidableEq

/-- One entry of `memory_storage["sales_data"]`. -/
structure StoredRow where
  userId : Option Nat
  fileUploadId : Option Nat
  row : Row
deriving DecidableEq

/-- The in-memory store (the parts ingestion touches). -/
structure MemDB where
  fileHashes : List PyStr
  fileUploads : List UploadRec
  salesData : List StoredRow
deriving DecidableEq

/-- Python `set.add`. -/
def addHash (h : PyStr) (s : List PyStr) : List PyStr :=
  if h ∈ s then s else s ++ [h]

/-- The `UploadResponse` fields the claims speak about. -/
structure UploadResp where
  status : PyStr
  rowsProcessed : Nat
  rowsStored : Nat
  fileHash : PyStr
  duplicateUpload : Bool
deriving DecidableEq

/-- `DataProcessor.process_csv` over the memory store. -/
def processCsv (hashF : PyStr → PyStr)
    (readClean : PyStr → Option (List Row))
    (db : MemDB) (content : PyStr) (filename : PyStr) (userId : Option Nat) :
    UploadResp × MemDB :=
  let fh := hashF content
  if fh ∈ db.fileHashes then
    ({ status := txt "success", rowsProcessed := 0, rowsStored := 0,
       fileHash := fh, duplicateUpload := true }, db)
  else
    match readClean content with
    | none =>
      ({ status := txt "error", rowsProcessed := 0, rowsStored := 0,
         fileHash := txt "", duplicateUpload := false }, db)
    | some df =>
      let fid := db.fileUploads.length + 1
      let db1 : MemDB :=
        { fileHashes := addHash fh db.fileHashes,
          fileUploads := db.fileUploads ++
            [{ id := fid, userId := userId, fileHash := fh,
               filename := filename, recordTally := df.length }],
          salesData := db.salesData ++
            df.map (fun r => { userId := userId, fileUploadId := some fid, row := r }) }
      ({ status := txt "success", rowsProcessed := df.length,
         rowsStored := df.length, fileHash := fh, duplicateUpload := false }, db1)

/-! ### Ingestion flow, database storage (`Database` with a pool)

`check_file_duplicate` runs a `SELECT EXISTS` scoped by `user_id` when
`user_id` is truthy; `record_file_upload` runs an
`INSERT ... ON CONFLICT (file_hash) DO UPDATE SET record_count` (the
`file_uploads.file_hash` column is declared `UNIQUE`), so a hash collision
keeps the existing record - and its owner - and only refreshes its
`record_count`; `insert_sales_data_batch` appends the rows. -/

/-- The database-mode store. -/
structure DbState where
  fileUploads : List UploadRec
  salesData : List StoredRow
deriving DecidableEq

/-- `Database.check_file_duplicate`, database path.  Python `if user_id:` is
false for `None` and for `0`. -/
def dbCheckDuplicate (st : DbState) (fh : PyStr) (userId : Option Nat) : Bool :=
  match userId with
  | some u =>
    if u ≠ 0 then
      st.fileUploads.any (fun r => r.fileHash == fh && r.userId == some u)
    else st.fileUploads.any (fun r => r.fileHash == fh)
  | none => st.fileUploads.any (fun r => r.fileHash == fh)

/-- `Database.record_file_upload`, database path: on a hash conflict the
existing row keeps its id and owner and only `record_count` is updated;
otherwise a fresh row is inserted.  Returns the surviving row's id. -/
def dbRecordUpload (st : DbState) (fh : PyStr) (filename : PyStr)
    (recordTally : Nat) (userId : Option Nat) : Nat × DbState :=
  match st.fileUploads.find? (fun r => r.fileHash == fh) with
  | some r =>
    (r.id,
     { st with fileUploads := (st.fileUploads.map
        (fun r' => if r'.fileHash == fh then { r' with recordTally := recordTally } else r')) })
  | none =>
    let fid := st.fileUploads.length + 1
    (fid,
     { st with fileUploads := st.fileUploads ++
        [{ id := fid, userId := userId, fileHash := fh,
           filename := filename, recordTally := recordTally }] })

/-- `DataProcessor.process_csv` over the database store. -/
def dbProcessCsv (hashF : PyStr → PyStr)
    (readClean : PyStr → Option (List Row))
    (st : DbState) (content : PyStr) (filename : PyStr) (userId : Option Nat) :
    UploadResp × DbState :=
  let fh := hashF content
  if dbCheckDuplicate st fh userId then
    ({ status := txt "success", rowsProcessed := 0, rowsStored := 0,
       fileHash := fh, duplicateUpload := true }, st)
  else
    match readClean content with
    | none =>
      ({ status := txt "error", rowsProcessed := 0, rowsStored := 0,
         fileHash := txt "", duplicateUpload := false }, st)
    | some df =>
      let (fid, st1) := dbRecordUpload st fh filename df.length userId
      let st2 : DbState :=
        { st1 with salesData := (st1.salesData ++
            df.map (fun r => { userId := userId, fileUploadId := some fid, row := r })) }
      ({ status := txt "success", rowsProcessed := df.length,
         rowsStored := df.length, fileHash := fh, duplicateUpload := false }, st2)

/-! ### Report drafting (`AIService`)

`_generate_articles_concurrent` launches one task per configured persona and
gathers them with `return_exceptions=True`, filtering exceptions out of the
results.  The only fallible operation inside a task is the external Gemini
call, whose outcome we abstract as `api : agent-key -> Except Unit PyStr`;
but `_generate_content` itself catches that failure and returns the
placeholder text "Unable to generate {agent_type} content at this time.
Please try again later." - prompt and context construction before the call
are pure - so a persona task never raises, and the exception filter keeps
all five results.  Memory-mode `insert_article` always builds and appends an
`Article`. -/

/-- `AIService.agents`: the five configured personas, in declared order. -/
def agents : List (PyStr × PyStr) :=
  [ (txt "market_analyst", txt "Market Analyst"),
    (txt "business_reporter", txt "Business Reporter"),
    (txt "sales_strategist", txt "Sales Strategist"),
    (txt "trend_forecaster", txt "Trend Forecaster"),
    (txt "executive_briefer", txt "Executive Briefer") ]

/-- One draft as built by `_generate_single_article`. -/
structure Draft where
  title : PyStr
  content : PyStr
  agentType : PyStr
deriving DecidableEq

/-- The placeholder `_generate_content` returns when the external call
fails: `f"Unable to generate {agent_type} content at this time. Please try
again later."`. -/
def unableText (agentType : PyStr) : PyStr :=
  txt "Unable to generate " ++ agentType ++
    txt " content at this time. Please try again later."

/-- `_generate_content`: the external Gemini call is wrapped in
`try/except`, so a failed call degrades to the placeholder text instead of
raising - the function is total. -/
def generateContent (api : PyStr → Except Unit PyStr) (agentType : PyStr) :
    PyStr :=
  match api agentType with
  | Except.ok t => t
  | Except.error _ => unableText agentType

/-- `_generate_single_article`: would re-raise an exception from its body,
but `_generate_content` is total, so the task always succeeds with a titled
draft. -/
def generateSingleArticle (monthYear : PyStr) (api : PyStr → Except Unit PyStr)
    (agentType agentName : PyStr) : Except Unit Draft :=
  Except.ok { title := agentName ++ txt " Report - " ++ monthYear,
              content := generateContent api agentType,
              agentType := agentType }

/-- `_generate_articles_concurrent`: gather all five persona tasks and keep
the non-exception results, in task order. -/
def generateArticlesConcurrent (monthYear : PyStr)
    (api : PyStr → Except Unit PyStr) : List Draft :=
  (agents.map (fun a => generateSingleArticle monthYear api a.1 a.2)).filterMap
    (fun r => match r with | Except.ok d => some d | Except.error _ => none)

/-- One stored article (memory-mode `insert_article` record). -/
structure ArticleRec where
  id : Nat
  userId : Option Nat
  title : PyStr
  content : PyStr
  agentType : PyStr
  generatedDate : Nat
deriving DecidableEq

/-- Memory-mode `insert_article`: append with the next id; returns the store
and the created record. -/
def insertArticleMem (store : List ArticleRec) (today : Nat)
    (userId : Option Nat) (d : Draft) : List ArticleRec × ArticleRec :=
  let a : ArticleRec :=
    { id := store.length + 1, userId := userId, title := d.title,
      content := d.content, agentType := d.agentType, generatedDate := today }
  (store ++ [a], a)

/-- `_store_articles_concurrent` over the memory store: every insert
succeeds, results in task order. -/
def storeArticlesConcurrent (store : List ArticleRec) (today : Nat)
    (userId : Option Nat) : List Draft → List ArticleRec × List ArticleRec
  | [] => (store, [])
  | d :: rest =>
    let p := insertArticleMem store today userId d
    let tail := storeArticlesConcurrent p.1 today userId rest
    (tail.1, p.2 :: tail.2)

/-- The `GenerationResponse` fields the claims speak about. -/
structure GenResp where
  status : PyStr
  articlesGenerated : Nat
  articles : List ArticleRec
deriving DecidableEq

/-- `AIService.generate_articles_with_check`: the NO_DATA check, then
concurrent generation, then concurrent storing.  `fileTally` is
`storage_info["file_count"]` and `recordTally` is `summary.record_count`. -/
def generateArticlesWithCheck (fileTally recordTally : Nat)
    (monthYear : PyStr) (today : Nat) (userId : Option Nat)
    (store : List ArticleRec) (api : PyStr → Except Unit PyStr) :
    GenResp × List ArticleRec :=
  if fileTally = 0 ∨ recordTally = 0 then
    ({ status := txt "error", articlesGenerated := 0, articles := [] }, store)
  else
    let drafts := generateArticlesConcurrent monthYear api
    let p := storeArticlesConcurrent store today userId drafts
    ({ status := txt "success", articlesGenerated := p.2.length,
       articles := p.2 }, p.1)

/-- A sample canonical row for concrete runs of the ingestion flow. -/
def sampleRow : Row :=
  { date := none, product := txt "Widget", category := txt "Unknown",
    amount := 5, quantity := 1, region := txt "North" }

/-- Fingerprint stand-in for concrete runs: the identity on byte content
(all hashing needs is determinism on the bytes). -/
def idHash : PyStr → PyStr := fun b => b

/-- Pipeline stand-in for concrete runs: every content parses to one row. -/
def constRead : PyStr → Option (List Row) := fun _ => some [sampleRow]

/-- Concrete memory-mode run: owner 1 ingests content "x". -/
def memRun1 : UploadResp × MemDB :=
  processCsv idHash constRead ⟨[], [], []⟩ (txt "x") (txt "a.csv") (some 1)

/-- Concrete memory-mode run: owner 2 then uploads the same content "x"
under another name. -/
def memRun2 : UploadResp × MemDB :=
  processCsv idHash constRead memRun1.2 (txt "x") (txt "b.csv") (some 2)

/-- Concrete database-mode run: owner 1 ingests content "x". -/
def dbRun1 : UploadResp × DbState :=
  dbProcessCsv idHash constRead ⟨[], []⟩ (txt "x") (txt "a.csv") (some 1)

/-- Concrete database-mode run: owner 2 then ingests the same content. -/
def dbRun2 : UploadResp × DbState :=
  dbProcessCsv idHash constRead dbRun1.2 (txt "x") (txt "b.csv") (some 2)

/-- Concrete database-mode run: owner 1 re-uploads their own content. -/
def dbRun2a : UploadResp × DbState :=
  dbProcessCsv idHash constRead dbRun1.2 (txt "x") (txt "b.csv") (some 1)

/-- Concrete database-mode run: owner 2 uploads the same content once more. -/
def dbRun3 : UploadResp × DbState :=
  dbProcessCsv idHash constRead dbRun2.2 (txt "x") (txt "c.csv") (some 2)

/-- Did the fallible external generation call for one persona succeed? -/
def isOkGen (r : Except Unit PyStr) : Bool :=
  match r with
  | Except.ok _ => true
  | Except.error _ => false

/-! ### Recent articles (`Database.get_recent_articles`, memory path)

Source:

    cutoff_date = date.today()
    articles = [Article(**art) for art in ... if (art["generated_date"] >= cutoff_date
                and (user_id is None or art.get("user_id") == user_id))]

The `days` argument is accepted but never used on this path. -/

/-- Memory-mode `get_recent_articles`; dates are modelled as day ordinals and
`today` is passed in for `date.today()`. -/
def getRecentArticles (today : Nat) (days : Nat) (userId : Option Nat)
    (store : List ArticleRec) : List ArticleRec :=
  let _ := days
  store.filter (fun a =>
    decide (a.generatedDate ≥ today) &&
    (userId == none || a.userId == userId))

/-! ## Theorems -/

/-- C10: in memory-storage mode, `get_recent_articles` fixes its cutoff at
`date.today()` whatever `days` is asked for, so the result is independent of
`days` and every returned article has `generated_date` of today or later;
articles generated on any earlier day are never returned. -/
theorem C10_recent_cutoff_is_today (today days days' : Nat)
    (userId : Option Nat) (store : List ArticleRec) :
    getRecentArticles today days userId store =
      getRecentArticles today days' userId store ∧
    (getRecentArticles today days userId store).all
      (fun a => decide (today ≤ a.generatedDate)) = true := by
  refine ⟨rfl, ?_⟩
  simp only [getRecentArticles, List.all_eq_true, List.mem_filter,
    Bool.and_eq_true, decide_eq_true_eq]
  intro a ha
  exact ha.2.1

/-- Every trial combination refused in the inner separator loop means the
loop returns nothing. -/
theorem sniffSeps_eq_none {α : Type} (pp : PyStr → PyStr → Option Nat)
    (pf : PyStr → PyStr → Option α) (e : PyStr) (seps : List PyStr)
    (h : ∀ s ∈ seps, ∀ c, pp e s = some c → c ≤ 1) :
    sniffSeps pp pf e seps = none := by
  induction seps with
  | nil => rfl
  | cons s rest ih =>
    have hrest : sniffSeps pp pf e rest = none :=
      ih (fun s' hs' c hc => h s' (List.mem_cons_of_mem _ hs') c hc)
    cases hps : pp e s with
    | none => simpa [sniffSeps, hps] using hrest
    | some c =>
      have hc : c ≤ 1 := h s (List.mem_cons_self _ _) c hps
      have : ¬ c > 1 := by omega
      simpa [sniffSeps, hps, this] using hrest

/-- Every trial combination refused means the whole sniffing phase raises. -/
theorem sniffEncs_eq_none {α : Type} (pp : PyStr → PyStr → Option Nat)
    (pf : PyStr → PyStr → Option α) (encs seps : List PyStr)
    (h : ∀ e ∈ encs, ∀ s ∈ seps, ∀ c, pp e s = some c → c ≤ 1) :
    sniffEncs pp pf encs seps = none := by
  induction encs with
  | nil => rfl
  | cons e rest ih =>
    have he : sniffSeps pp pf e seps = none :=
      sniffSeps_eq_none pp pf e seps (h e (List.mem_cons_self _ _))
    have hrest : sniffEncs pp pf rest seps = none :=
      ih (fun e' he' => h e' (List.mem_cons_of_mem _ he'))
    simp [sniffEncs, he, hrest]

/-- C8: when no tried (encoding, separator) combination parses the content
into more than one column, `process_csv` answers with the error response
(`status="error"`, `rows_processed=0`, `rows_stored=0`) and the store is
untouched: no file-upload record, no rows, no remembered hash.  (`ppb` is the
5-row trial parse of the content, `pfb` the full parse, `post` the rest of
the cleaning pipeline applied to a successfully sniffed table; the content's
hash is not already recorded, which holds for any state the system can reach
since unreadable content is never recorded.) -/
theorem C8_unreadable_input_stores_nothing {α : Type}
    (hashF : PyStr → PyStr)
    (ppb : PyStr → PyStr → PyStr → Option Nat)
    (pfb : PyStr → PyStr → PyStr → Option α)
    (post : α → List Row) (db : MemDB) (content filename : PyStr)
    (userId : Option Nat)
    (hfresh : hashF content ∉ db.fileHashes)
    (hcols : ∀ e ∈ encodingOptions, ∀ s ∈ separatorOptions,
      ∀ c, ppb content e s = some c → c ≤ 1) :
    processCsv hashF (fun b => (sniffCsv (ppb b) (pfb b)).map post)
        db content filename userId =
      ({ status := txt "error", rowsProcessed := 0, rowsStored := 0,
         fileHash := txt "", duplicateUpload := false }, db) := by
  have hsniff : sniffCsv (ppb content) (pfb content) = (none : Option α) :=
    sniffEncs_eq_none _ _ _ _ hcols
  simp [processCsv, hfresh, hsniff]

/-- C8 witness: a content none of whose trial parses sees a second column is
rejected with the error response and an unchanged store. -/
theorem C8_unreadable_input_stores_nothing_witness :
    processCsv (fun b => b)
      (fun b => (sniffCsv ((fun _ _ _ => some 1) b)
        ((fun _ _ _ => (none : Option (List Row))) b)).map id)
      ⟨[], [], []⟩ (txt "x") (txt "f.csv") none =
    ({ status := txt "error", rowsProcessed := 0, rowsStored := 0,
       fileHash := txt "", duplicateUpload := false }, ⟨[], [], []⟩) :=
  C8_unreadable_input_stores_nothing (fun b => b) (fun _ _ _ => some 1)
    (fun _ _ _ => none) id ⟨[], [], []⟩ (txt "x") (txt "f.csv") none
    (by simp)
    (by
      intro e he s hs c hc
      injection hc with h1
      omega)

/-- A character's lower-cased form determines its letterhood, its
upper-cased form, and (for non-letters) the character itself. -/
theorem lowerByte_congr (a b : Nat) (h : lowerByte a = lowerByte b) :
    isAlphaByte a = isAlphaByte b ∧ upperByte a = upperByte b ∧
      (isAlphaByte a = false → a = b) := by
  simp only [lowerByte] at h
  refine ⟨?_, ?_, ?_⟩
  · rw [Bool.eq_iff_iff]
    simp only [isAlphaByte, Bool.or_eq_true, Bool.and_eq_true,
      decide_eq_true_eq]
    split_ifs at h <;> omega
  · simp only [upperByte]
    split_ifs at h ⊢ <;> omega
  · intro ha
    simp only [isAlphaByte, Bool.or_eq_false_iff, Bool.and_eq_false_iff,
      decide_eq_false_iff_not, not_le] at ha
    split_ifs at h <;> omega

/-- Title-casing only looks at the case-folded characters: two strings with
the same lower-casing have the same title-casing. -/
theorem pyTitleAux_congr (s t : PyStr) (h : s.map lowerByte = t.map lowerByte) :
    ∀ prev : Bool, pyTitleAux prev s = pyTitleAux prev t := by
  induction s generalizing t with
  | nil =>
    cases t with
    | nil => intro prev; rfl
    | cons b t' => simp at h
  | cons a s' ih =>
    cases t with
    | nil => simp at h
    | cons b t' =>
      simp only [List.map_cons, List.cons.injEq] at h
      obtain ⟨h1, h2⟩ := h
      intro prev
      simp only [pyTitleAux]
      cases hA : isAlphaByte a with
      | false =>
        have hB : isAlphaByte b = false := by
          have hq := (lowerByte_congr a b h1).1
          rw [hA] at hq
          exact hq.symm
        have hab : a = b := (lowerByte_congr a b h1).2.2 hA
        simp [hA, hB, hab, ih t' h2]
      | true =>
        have hB : isAlphaByte b = true := by
          have hq := (lowerByte_congr a b h1).1
          rw [hA] at hq
          exact hq.symm
        have hup := (lowerByte_congr a b h1).2.1
        cases prev with
        | true => simp [hA, hB, h1, ih t' h2]
        | false => simp [hA, hB, hup, ih t' h2]

/-- Lower-casing is idempotent. -/
theorem lowerByte_lowerByte (c : Nat) : lowerByte (lowerByte c) = lowerByte c := by
  simp only [lowerByte]
  split_ifs <;> omega

/-- C6: a raw categorical cell that, compared case-insensitively after
trimming, equals one of the null tokens "nan", "null", "none", "", "n/a",
"na" is normalized by `_process_categorical_smart` to exactly "Unknown". -/
theorem C6_null_tokens_become_unknown (cell : PyStr)
    (h : pyLower (pyStrip cell) ∈ nullPatterns) :
    processCategoricalCell cell = txt "Unknown" := by
  have hmap : (pyStrip cell).map lowerByte =
      (pyLower (pyStrip cell)).map lowerByte := by
    simp only [pyLower, List.map_map]
    exact (List.map_congr_left (fun c _ => (lowerByte_lowerByte c).symm))
  have htitle : pyTitle (pyStrip cell) = pyTitle (pyLower (pyStrip cell)) :=
    pyTitleAux_congr _ _ hmap false
  have hmem : pyTitle (pyStrip cell) ∈ nullPatterns.map pyTitle := by
    rw [htitle]
    exact List.mem_map_of_mem pyTitle h
  simp only [processCategoricalCell, if_pos hmem]

/-- C6 witness: the raw cell " N/a " is normalized to "Unknown". -/
theorem C6_null_tokens_become_unknown_witness :
    pyLower (pyStrip (txt " N/a ")) ∈ nullPatterns ∧
      processCategoricalCell (txt " N/a ") = txt "Unknown" :=
  ⟨by decide, C6_null_tokens_become_unknown (txt " N/a ") (by decide)⟩

/-- A state whose upload table holds a record carrying the hash (and, for a
truthy owner, that owner) is reported as a duplicate. -/
theorem dbCheckDuplicate_of_rec (st : DbState) (fh : PyStr) (uid : Option Nat)
    (r : UploadRec) (hr : r ∈ st.fileUploads) (hh : r.fileHash = fh)
    (hu : r.userId = uid) :
    dbCheckDuplicate st fh uid = true := by
  unfold dbCheckDuplicate
  cases uid with
  | none =>
    simp only [List.any_eq_true]
    exact ⟨r, hr, by simp [hh]⟩
  | some u =>
    dsimp only
    split_ifs with hz
    · simp only [List.any_eq_true]
      exact ⟨r, hr, by simp [hh, hu]⟩
    · simp only [List.any_eq_true]
      exact ⟨r, hr, by simp [hh]⟩

/-- C1 counterexample: in database mode, after owner 1 ingests content "x",
owner 2's ingestion of the identical bytes completes successfully and stores
its row (the upload record, kept by `ON CONFLICT (file_hash)`, still belongs
to owner 1); owner 2's next upload of those same bytes is then NOT flagged
as a duplicate and stores its row again, growing the stored row count -
refuting the claim at this concrete input. -/
theorem C1_db_repeat_not_duplicate_counterexample :
    dbRun2.1.status = txt "success" ∧
    dbRun2.1.duplicateUpload = false ∧
    dbRun2.1.rowsStored = 1 ∧
    dbRun3.1.duplicateUpload = false ∧
    dbRun3.1.rowsStored = 1 ∧
    dbRun3.2.salesData.length = dbRun2.2.salesData.length + 1 := by
  refine ⟨rfl, rfl, rfl, rfl, rfl, rfl⟩

/-- C1 (amended): ingesting byte-identical content twice is flagged
`duplicate_upload=true` with zero rows processed and stored and an unchanged
store, (a) unconditionally in memory-storage mode, for any filenames and any
owners on the two calls, and (b) in database mode when both calls are made
by the same owner and no other owner had already recorded the same
fingerprint (otherwise the conflict-keeping upload record defeats the scoped
duplicate check, as the counterexample shows). -/
theorem C1_amended_duplicate_idempotence :
    (∀ (hashF : PyStr → PyStr) (readClean : PyStr → Option (List Row))
      (db : MemDB) (content n1 n2 : PyStr) (u1 u2 : Option Nat),
      (processCsv hashF readClean db content n1 u1).1.status = txt "success" →
      (processCsv hashF readClean db content n1 u1).1.duplicateUpload = false →
      (processCsv hashF readClean (processCsv hashF readClean db content n1 u1).2
          content n2 u2).1.duplicateUpload = true ∧
      (processCsv hashF readClean (processCsv hashF readClean db content n1 u1).2
          content n2 u2).1.rowsStored = 0 ∧
      (processCsv hashF readClean (processCsv hashF readClean db content n1 u1).2
          content n2 u2).1.rowsProcessed = 0 ∧
      (processCsv hashF readClean (processCsv hashF readClean db content n1 u1).2
          content n2 u2).2 =
        (processCsv hashF readClean db content n1 u1).2) ∧
    (∀ (hashF : PyStr → PyStr) (readClean : PyStr → Option (List Row))
      (st : DbState) (content n1 n2 : PyStr) (uid : Option Nat),
      (∀ r ∈ st.fileUploads, r.fileHash ≠ hashF content) →
      (dbProcessCsv hashF readClean st content n1 uid).1.status = txt "success" →
      (dbProcessCsv hashF readClean st content n1 uid).1.duplicateUpload = false →
      (dbProcessCsv hashF readClean (dbProcessCsv hashF readClean st content n1 uid).2
          content n2 uid).1.duplicateUpload = true ∧
      (dbProcessCsv hashF readClean (dbProcessCsv hashF readClean st content n1 uid).2
          content n2 uid).1.rowsStored = 0 ∧
      (dbProcessCsv hashF readClean (dbProcessCsv hashF readClean st content n1 uid).2
          content n2 uid).1.rowsProcessed = 0 ∧
      (dbProcessCsv hashF readClean (dbProcessCsv hashF readClean st content n1 uid).2
          content n2 uid).2 =
        (dbProcessCsv hashF readClean st content n1 uid).2) := by
  constructor
  · intro hashF readClean db content n1 n2 u1 u2 h1 h2
    by_cases hf : hashF content ∈ db.fileHashes
    · exfalso
      simp [processCsv, hf] at h2
    · cases hrc : readClean content with
      | none =>
        exfalso
        simp [processCsv, hf, hrc] at h1
        exact absurd h1 (by decide)
      | some df =>
        have hmem : hashF content ∈ addHash (hashF content) db.fileHashes := by
          unfold addHash
          split
          · assumption
          · simp
        simp [processCsv, hf, hrc, hmem]
  · intro hashF readClean st content n1 n2 uid hfresh h1 h2
    by_cases hd : dbCheckDuplicate st (hashF content) uid = true
    · exfalso
      simp [dbProcessCsv, hd] at h2
    · cases hrc : readClean content with
      | none =>
        exfalso
        simp [dbProcessCsv, hd, hrc] at h1
        exact absurd h1 (by decide)
      | some df =>
        have hfind : st.fileUploads.find?
            (fun r => r.fileHash == hashF content) = none := by
          rw [List.find?_eq_none]
          intro r hr
          simp [hfresh r hr]
        have hdup2 : dbCheckDuplicate
            ⟨st.fileUploads ++
              [{ id := st.fileUploads.length + 1, userId := uid,
                 fileHash := hashF content, filename := n1,
                 recordTally := df.length }],
             st.salesData ++ df.map (fun r =>
               { userId := uid, fileUploadId := some (st.fileUploads.length + 1),
                 row := r })⟩ (hashF content) uid = true := by
          apply dbCheckDuplicate_of_rec _ _ _
            { id := st.fileUploads.length + 1, userId := uid,
              fileHash := hashF content, filename := n1,
              recordTally := df.length }
            (by simp) rfl rfl
        simp [dbProcessCsv, hd, hrc, dbRecordUpload, hfind, hdup2]

/-- C9 counterexample: in memory-storage mode the duplicate check ignores the
owner entirely - after owner 1 successfully ingests content "x", owner 2's
very first upload of that content short-circuits as a duplicate, refuting
per-owner scoping at this concrete input. -/
theorem C9_memory_global_duplicate_counterexample :
    memRun1.1.status = txt "success" ∧
    memRun1.1.duplicateUpload = false ∧
    memRun1.1.rowsStored = 1 ∧
    memRun2.1.duplicateUpload = true ∧
    memRun2.1.rowsStored = 0 :=
  ⟨rfl, rfl, rfl, rfl, rfl⟩

/-- C9 (amended): duplicate detection is scoped per owner only in database
mode with a truthy (nonzero) owner id: an upload short-circuits as a
duplicate (with zero rows re-stored and an unchanged store) when some upload
record carries the same fingerprint AND this owner, and is not flagged
duplicate when no record carries both; in memory-storage mode the check is
global across owners (see the counterexample). -/
theorem C9_amended_owner_scoped_in_db_mode
    (hashF : PyStr → PyStr) (readClean : PyStr → Option (List Row))
    (st : DbState) (content filename : PyStr) (u : Nat) (hu : u ≠ 0) :
    ((∃ r ∈ st.fileUploads, r.fileHash = hashF content ∧ r.userId = some u) →
      (dbProcessCsv hashF readClean st content filename (some u)).1.duplicateUpload
          = true ∧
      (dbProcessCsv hashF readClean st content filename (some u)).1.rowsStored = 0 ∧
      (dbProcessCsv hashF readClean st content filename (some u)).2 = st) ∧
    ((∀ r ∈ st.fileUploads, ¬(r.fileHash = hashF content ∧ r.userId = some u)) →
      (dbProcessCsv hashF readClean st content filename (some u)).1.duplicateUpload
          = false) := by
  constructor
  · rintro ⟨r, hr, hh, huid⟩
    have hd : dbCheckDuplicate st (hashF content) (some u) = true :=
      dbCheckDuplicate_of_rec st (hashF content) (some u) r hr hh huid
    simp [dbProcessCsv, hd]
  · intro hnone
    have hd : dbCheckDuplicate st (hashF content) (some u) = false := by
      unfold dbCheckDuplicate
      dsimp only
      rw [if_pos hu]
      rw [List.any_eq_false]
      intro r hr
      have := hnone r hr
      simp only [Bool.and_eq_true, beq_iff_eq, not_and] at this ⊢
      exact this
    cases hrc : readClean content with
    | none => simp [dbProcessCsv, hd, hrc]
    | some df =>
      rcases hru : dbRecordUpload st (hashF content) filename df.length (some u)
        with ⟨fid, st1⟩
      simp [dbProcessCsv, hd, hrc, hru]

/-- C9 witness: with one upload record of content "x" owned by owner 1,
owner 1's re-upload is flagged duplicate with nothing re-stored, while owner
2's first upload of the same content is not flagged. -/
theorem C9_amended_owner_scoped_in_db_mode_witness :
    ((dbProcessCsv idHash constRead
        ⟨[{ id := 1, userId := some 1, fileHash := txt "x",
            filename := txt "a.csv", recordTally := 1 }], []⟩
        (txt "x") (txt "b.csv") (some 1)).1.duplicateUpload = true ∧
     (dbProcessCsv idHash constRead
        ⟨[{ id := 1, userId := some 1, fileHash := txt "x",
            filename := txt "a.csv", recordTally := 1 }], []⟩
        (txt "x") (txt "b.csv") (some 1)).1.rowsStored = 0 ∧
     (dbProcessCsv idHash constRead
        ⟨[{ id := 1, userId := some 1, fileHash := txt "x",
            filename := txt "a.csv", recordTally := 1 }], []⟩
        (txt "x") (txt "b.csv") (some 1)).2 =
       ⟨[{ id := 1, userId := some 1, fileHash := txt "x",
            filename := txt "a.csv", recordTally := 1 }], []⟩) ∧
    (dbProcessCsv idHash constRead
        ⟨[{ id := 1, userId := some 1, fileHash := txt "x",
            filename := txt "a.csv", recordTally := 1 }], []⟩
        (txt "x") (txt "b.csv") (some 2)).1.duplicateUpload = false :=
  ⟨(C9_amended_owner_scoped_in_db_mode idHash constRead _ (txt "x")
      (txt "b.csv") 1 (by decide)).1
    ⟨{ id := 1, userId := some 1, fileHash := txt "x",
       filename := txt "a.csv", recordTally := 1 }, by simp, rfl, rfl⟩,
   (C9_amended_owner_scoped_in_db_mode idHash constRead _ (txt "x")
      (txt "b.csv") 2 (by decide)).2
    (by intro r hr; simp at hr; simp [hr])⟩

/-- C1 witness: concrete double ingestion of content "x", in memory mode
with two different owners and filenames, and in database mode with one
owner starting from an empty store. -/
theorem C1_amended_duplicate_idempotence_witness :
    (memRun2.1.duplicateUpload = true ∧ memRun2.1.rowsStored = 0 ∧
     memRun2.1.rowsProcessed = 0 ∧ memRun2.2 = memRun1.2) ∧
    (dbRun2a.1.duplicateUpload = true ∧ dbRun2a.1.rowsStored = 0 ∧
     dbRun2a.1.rowsProcessed = 0 ∧ dbRun2a.2 = dbRun1.2) :=
  ⟨C1_amended_duplicate_idempotence.1 idHash constRead ⟨[], [], []⟩
      (txt "x") (txt "a.csv") (txt "b.csv") (some 1) (some 2) rfl rfl,
   C1_amended_duplicate_idempotence.2 idHash constRead ⟨[], []⟩
      (txt "x") (txt "a.csv") (txt "b.csv") (some 1)
      (by intro r hr; simp at hr) rfl rfl⟩

/-- Storing drafts concurrently stores all of them, keeping persona tag and
text in task order. -/
theorem storeArticles_spec (today : Nat) (uid : Option Nat) :
    ∀ (drafts : List Draft) (store : List ArticleRec),
      ((storeArticlesConcurrent store today uid drafts).2.map
          (fun a => (a.agentType, a.content)) =
        drafts.map (fun d => (d.agentType, d.content))) ∧
      (storeArticlesConcurrent store today uid drafts).2.length =
        drafts.length := by
  intro drafts
  induction drafts with
  | nil => intro store; exact ⟨rfl, rfl⟩
  | cons d rest ih =>
    intro store
    simp only [storeArticlesConcurrent, insertArticleMem, List.map_cons,
      List.length_cons]
    refine ⟨?_, ?_⟩
    · rw [(ih _).1]
    · rw [(ih _).2]

/-- The gathered persona round never loses a task: every persona call
settles with a draft (placeholder text on external failure), in task
order. -/
theorem gatherAll_spec (monthYear : PyStr) (api : PyStr → Except Unit PyStr) :
    ∀ (l : List (PyStr × PyStr)),
      (((l.map (fun a => generateSingleArticle monthYear api a.1 a.2)).filterMap
          (fun r => match r with
            | Except.ok d => some d
            | Except.error _ => none)).map
        (fun d => (d.agentType, d.content)) =
        l.map (fun a => (a.1, generateContent api a.1))) ∧
      ((l.map (fun a => generateSingleArticle monthYear api a.1 a.2)).filterMap
          (fun r => match r with
            | Except.ok d => some d
            | Except.error _ => none)).length = l.length := by
  intro l
  induction l with
  | nil => exact ⟨rfl, rfl⟩
  | cons a l ih =>
    have hh : generateSingleArticle monthYear api a.1 a.2 =
        Except.ok { title := a.2 ++ txt " Report - " ++ monthYear,
                    content := generateContent api a.1,
                    agentType := a.1 } := rfl
    simp only [List.map_cons, List.filterMap_cons, hh, List.length_cons]
    refine ⟨?_, ?_⟩
    · rw [ih.1]
    · rw [ih.2]

/-- C2 counterexample: with the market-analyst and trend-forecaster external
calls failing and the other three succeeding - exactly 2 of 5 persona calls
fail - the round still returns `articles_generated = 5`, not 3, because
`_generate_content` swallows the failure and substitutes placeholder text:
the first stored article is the market analyst's placeholder draft. -/
theorem C2_placeholder_articles_counterexample :
    (agents.filter (fun a => isOkGen
        ((fun k => if k == txt "market_analyst" || k == txt "trend_forecaster"
          then Except.error () else Except.ok (txt "body")) a.1))).length = 3 ∧
    (generateArticlesWithCheck 1 1 (txt "June 2024") 0 none []
        (fun k => if k == txt "market_analyst" || k == txt "trend_forecaster"
          then Except.error () else Except.ok (txt "body"))).1.articlesGenerated
      = 5 ∧
    ((generateArticlesWithCheck 1 1 (txt "June 2024") 0 none []
        (fun k => if k == txt "market_analyst" || k == txt "trend_forecaster"
          then Except.error () else Except.ok (txt "body"))).1.articles.map
      (fun a => a.content)).head? =
        some (unableText (txt "market_analyst")) := by
  refine ⟨by decide, by decide, by decide⟩

/-- C2 (amended): with data available, the five persona calls are
independent and an external generation failure aborts nothing - but it does
not reduce the article count either: `_generate_content` catches the failure
and returns placeholder text, so the round always yields status "success"
with exactly one stored article per configured persona
(`articles_generated = 5`), each persona's article carrying its own call's
text on success and the "Unable to generate ..." placeholder on failure. -/
theorem C2_amended_placeholder_on_failure (fileTally recordTally : Nat)
    (monthYear : PyStr) (today : Nat) (userId : Option Nat)
    (store : List ArticleRec) (api : PyStr → Except Unit PyStr)
    (hf : fileTally ≠ 0) (hr : recordTally ≠ 0) :
    (generateArticlesWithCheck fileTally recordTally monthYear today userId
        store api).1.status = txt "success" ∧
    (generateArticlesWithCheck fileTally recordTally monthYear today userId
        store api).1.articlesGenerated = 5 ∧
    ((generateArticlesWithCheck fileTally recordTally monthYear today userId
        store api).1.articles.map (fun a => (a.agentType, a.content)) =
      agents.map (fun a => (a.1, generateContent api a.1))) := by
  have hcond : ¬(fileTally = 0 ∨ recordTally = 0) := by
    rintro (h | h) <;> [exact hf h; exact hr h]
  have hstore := storeArticles_spec today userId
    (generateArticlesConcurrent monthYear api) store
  have hgather := gatherAll_spec monthYear api agents
  simp only [generateArticlesWithCheck, if_neg hcond]
  refine ⟨by trivial, ?_, ?_⟩
  · rw [hstore.2]
    have hlen : (generateArticlesConcurrent monthYear api).length =
        agents.length := by
      simpa only [generateArticlesConcurrent] using hgather.2
    rw [hlen]
    rfl
  · rw [hstore.1]
    simpa only [generateArticlesConcurrent] using hgather.1

/-- C2 witness: a concrete round where only the executive-briefer call fails
still stores five articles, the failed persona receiving the placeholder. -/
theorem C2_amended_placeholder_on_failure_witness :
    (generateArticlesWithCheck 1 1 (txt "June 2024") 0 none []
        (fun k => if k == txt "executive_briefer" then Except.error ()
          else Except.ok (txt "body"))).1.status = txt "success" ∧
    (generateArticlesWithCheck 1 1 (txt "June 2024") 0 none []
        (fun k => if k == txt "executive_briefer" then Except.error ()
          else Except.ok (txt "body"))).1.articlesGenerated = 5 ∧
    ((generateArticlesWithCheck 1 1 (txt "June 2024") 0 none []
        (fun k => if k == txt "executive_briefer" then Except.error ()
          else Except.ok (txt "body"))).1.articles.map
      (fun a => (a.agentType, a.content)) =
      agents.map (fun a => (a.1, generateContent
        (fun k => if k == txt "executive_briefer" then Except.error ()
          else Except.ok (txt "body")) a.1))) := by
  have h := C2_amended_placeholder_on_failure 1 1 (txt "June 2024") 0 none []
    (fun k => if k == txt "executive_briefer" then Except.error ()
      else Except.ok (txt "body")) (by decide) (by decide)
  exact ⟨h.1, h.2.1, h.2.2⟩

/-- Python dict assignment reads back as written: looking up `q` after
setting key `k` sees the new value exactly when `k = q`. -/
theorem dictFind_dictInsert (q k v : PyStr) :
    ∀ (d : List (PyStr × PyStr)),
      dictFind q (dictInsert k v d) =
        if k = q then some v else dictFind q d := by
  intro d
  induction d with
  | nil =>
    simp only [dictInsert, dictFind]
    by_cases h : k = q
    · simp [h]
    · simp [h, fun hq => h (by simpa [eq_comm] using hq)]
  | cons p d ih =>
    by_cases h1 : p.1 = k
    · simp only [dictInsert, beq_iff_eq, h1, if_pos rfl, dictFind]
      by_cases h2 : k = q
      · simp [h2]
      · simp only [beq_iff_eq, h2, if_neg h2, if_neg (fun hq => h2 hq)]
        rfl
    · simp only [dictInsert, beq_iff_eq, if_neg h1, dictFind, ih]
      by_cases h2 : p.1 = q
      · have hk : ¬ k = q := fun hq => h1 (hq ▸ h2)
        simp [h2, hk]
      · simp [h2]

/-- Looking up a header in the dict built by the double loop is deciding, for
the fields scanned from the last to the first, whether the header is that
field's first matching column: the last write to the Python dict wins. -/
theorem dictFind_foldl_assign (cols : List PyStr) (h : PyStr) :
    ∀ (l : List (PyStr × List PyStr)) (d : List (PyStr × PyStr)),
      dictFind h (l.foldl (assignField cols) d) =
        match lastAssign cols h l with
        | some f => some f
        | none => dictFind h d := by
  intro l
  induction l with
  | nil => intro d; rfl
  | cons entry rest ih =>
    intro d
    simp only [List.foldl_cons]
    rw [ih]
    cases hla : lastAssign cols h rest with
    | some f => simp [lastAssign, hla]
    | none =>
      simp only [lastAssign, hla]
      cases hfm : firstMatch entry.2 cols with
      | none => simp [assignField, hfm]
      | some col =>
        simp only [assignField, hfm, dictFind_dictInsert]
        by_cases hc : col = h
        · simp [hc]
        · simp [hc]

/-- A first-matching column really matches and really is a column. -/
theorem firstMatch_sound (names : List PyStr) :
    ∀ (cols : List PyStr) (c : PyStr), firstMatch names cols = some c →
      anySyn names c = true ∧ c ∈ cols := by
  intro cols
  induction cols with
  | nil => intro c hc; cases hc
  | cons x cols ih =>
    intro c hc
    by_cases hx : anySyn names x = true
    · simp only [firstMatch, if_pos hx, Option.some.injEq] at hc
      subst hc
      exact ⟨hx, List.mem_cons_self _ _⟩
    · simp only [firstMatch, if_neg hx] at hc
      obtain ⟨h1, h2⟩ := ih c hc
      exact ⟨h1, List.mem_cons_of_mem _ h2⟩

/-- C3 counterexample: the normalized header "product_category" contains a
synonym of the field `product` (checked before `category` in the declared
field order), so by the claim it must resolve to `product`; the code resolves
it to `category`, because the later field's dict write overwrites the
earlier field's. -/
theorem C3_first_field_counterexample :
    dictFind (cleanHeader (txt "Product Category"))
        (mappedColumns [cleanHeader (txt "Product Category")]) =
      some (txt "category") ∧
    specFirstField (cleanHeader (txt "Product Category")) =
      some (txt "product") ∧
    txt "category" ≠ txt "product" := by
  refine ⟨by decide, by decide, by decide⟩

/-- C3 (amended): after normalization, the double loop assigns each canonical
field (scanned in declared order) the first column containing any of that
field's synonyms, and a column claimed by several fields keeps the LAST such
field, not the first; every column never claimed this way - in particular
every column matching no synonym at all - is absent from the mapping and so
dropped from the canonical row. -/
theorem C3_amended_last_field_wins (rawCols : List PyStr) (h : PyStr) :
    (dictFind h (mappedColumns (rawCols.map cleanHeader)) =
      lastAssign (rawCols.map cleanHeader) h columnMappings) ∧
    ((∀ entry ∈ columnMappings, anySyn entry.2 h = false) →
      dictFind h (mappedColumns (rawCols.map cleanHeader)) = none) := by
  have hmain : dictFind h (mappedColumns (rawCols.map cleanHeader)) =
      lastAssign (rawCols.map cleanHeader) h columnMappings := by
    rw [mappedColumns, dictFind_foldl_assign]
    cases lastAssign (rawCols.map cleanHeader) h columnMappings <;> rfl
  refine ⟨hmain, ?_⟩
  intro hnone
  rw [hmain]
  have : ∀ (l : List (PyStr × List PyStr)),
      (∀ entry ∈ l, anySyn entry.2 h = false) →
      lastAssign (rawCols.map cleanHeader) h l = none := by
    intro l
    induction l with
    | nil => intro _; rfl
    | cons entry rest ih =>
      intro hl
      simp only [lastAssign, ih (fun e he => hl e (List.mem_cons_of_mem _ he))]
      cases hfm : firstMatch entry.2 (rawCols.map cleanHeader) with
      | none => simp
      | some col =>
        have hcol := firstMatch_sound entry.2 _ col hfm
        rw [if_neg (fun (hq : (some col == some h) = true) => by
          rw [beq_iff_eq, Option.some.injEq] at hq
          subst hq
          rw [hl entry (List.mem_cons_self _ _)] at hcol
          exact Bool.false_ne_true hcol.1)]
  exact this columnMappings hnone

/-- C3 witness: concrete headers; "order_date" resolves exactly as the
last-field-wins scan says, and the never-matching header "weird_col" is
absent from the mapping. -/
theorem C3_amended_last_field_wins_witness :
    (dictFind (txt "order_date")
        (mappedColumns ([txt "Order Date", txt "Weird Col"].map cleanHeader)) =
      lastAssign ([txt "Order Date", txt "Weird Col"].map cleanHeader)
        (txt "order_date") columnMappings) ∧
    dictFind (txt "weird_col")
        (mappedColumns ([txt "Order Date", txt "Weird Col"].map cleanHeader)) =
      none :=
  ⟨(C3_amended_last_field_wins [txt "Order Date", txt "Weird Col"]
      (txt "order_date")).1,
   (C3_amended_last_field_wins [txt "Order Date", txt "Weird Col"]
      (txt "weird_col")).2 (by decide)⟩

/-- C4 counterexample: a batch of two parseable amounts, both -1, has
p99 = -1; every value exceeds 3 x p99 = -3 and is "capped" to p99 = -1, so
the normalized output still holds -1, which exceeds 3 x p99 - refuting the
claim's bound at this concrete input. -/
theorem C4_negative_p99_counterexample :
    preCapQ99 [some (-1), some (-1)] = -1 ∧
    capAmounts [some (-1), some (-1)] = [-1, -1] ∧
    ¬((-1 : ℚ) ≤ (-1) * 3) := by
  refine ⟨?_, ?_, by norm_num⟩
  · norm_num [preCapQ99, pandasQuantile, sortAsc, insAsc, List.filterMap_cons]
  · norm_num [capAmounts, preCapQ99, pandasQuantile, sortAsc, insAsc,
      List.filterMap_cons]

/-- C4 (amended): with at least one parseable value, normalization keeps one
output per input cell, replaces exactly the parseable amounts exceeding
3 x p99 by p99 itself (all others, and the NaN cells filled with 0, pass
through), and - provided p99 is nonnegative, as it is whenever the amounts
are nonnegative - no amount in the normalized output exceeds 3 x p99 of the
pre-cap distribution. -/
theorem C4_amended_capping (xs : List (Option ℚ))
    (hne : (xs.filterMap id).length > 0) :
    (capAmounts xs).length = xs.length ∧
    (∀ i : Fin xs.length, ∀ v : ℚ, xs.get i = some v →
      (capAmounts xs).getD i.val 0 =
        if v > preCapQ99 xs * 3 then preCapQ99 xs else v) ∧
    (0 ≤ preCapQ99 xs → ∀ y ∈ capAmounts xs, y ≤ preCapQ99 xs * 3) := by
  rw [capAmounts, if_pos hne]
  rw [List.map_map]
  refine ⟨by simp, ?_, ?_⟩
  · intro i v hv
    have hi : i.val < (xs.map ((fun o => o.getD 0) ∘
        (fun o => o.map (fun v => if v > preCapQ99 xs * 3
          then preCapQ99 xs else v)))).length := by
      rw [List.length_map]
      exact i.isLt
    rw [List.getD_eq_getElem _ _ hi, List.getElem_map]
    have hx : xs[i.val] = some v := by
      simpa [List.get_eq_getElem] using hv
    rw [hx]
    rfl
  · intro h0 y hy
    obtain ⟨o, ho, rfl⟩ := List.mem_map.mp hy
    cases o with
    | none =>
      show (0 : ℚ) ≤ preCapQ99 xs * 3
      linarith
    | some v =>
      simp only [Function.comp, Option.map_some', Option.getD_some]
      split_ifs with hgt
      · linarith
      · linarith

/-- C4 witness: for the batch [1, 2] the percentile is nonnegative, the
output has one entry per input, the first entry follows the capping formula,
and every output is bounded by 3 x p99. -/
theorem C4_amended_capping_witness :
    (capAmounts [some 1, some 2]).length = 2 ∧
    (capAmounts [some 1, some 2]).getD 0 0 =
      (if (1 : ℚ) > preCapQ99 [some 1, some 2] * 3
        then preCapQ99 [some 1, some 2] else 1) ∧
    (∀ y ∈ capAmounts [some 1, some 2], y ≤ preCapQ99 [some 1, some 2] * 3) := by
  have h := C4_amended_capping [some 1, some 2]
    (by norm_num [List.filterMap_cons])
  refine ⟨h.1, ?_, h.2.2 (by norm_num [preCapQ99, pandasQuantile, sortAsc,
    insAsc, List.filterMap_cons])⟩
  exact h.2.1 ⟨0, by norm_num⟩ 1 rfl

/-- Scanning marks no duplicate exactly when dropping duplicates keeps the
list unchanged. -/
theorem dedupRows_of_no_dups : ∀ (l : List Row) (seen : List Row),
    dupMarkTally seen l = 0 → dedupRows seen l = l := by
  intro l
  induction l with
  | nil => intro seen _; rfl
  | cons r rest ih =>
    intro seen h
    by_cases hr : r ∈ seen
    · rw [dupMarkTally, if_pos hr] at h
      omega
    · rw [dupMarkTally, if_neg hr] at h
      rw [dedupRows, if_neg hr, ih _ h]

/-- The guarded duplicate-dropping step always equals a plain first-kept
deduplication. -/
theorem dropDuplicateRows_eq_dedup (l : List Row) :
    dropDuplicateRows l = dedupRows [] l := by
  unfold dropDuplicateRows
  split_ifs with h1 h2
  · rfl
  · exact (dedupRows_of_no_dups l [] (by omega)).symm
  · cases l with
    | nil => rfl
    | cons r rest =>
      cases rest with
      | nil => simp [dedupRows]
      | cons r' rest' => simp at h1

/-- The extreme-outlier step equals the unconditional filter whenever its
row-count guard passes, and is the identity otherwise. -/
theorem dropExtremeRows_eq (l : List Row) :
    dropExtremeRows l =
      if l.length > 10 then
        l.filter (fun r =>
          r.amount ≤ pandasQuantile (999 / 1000) (l.map Row.amount) * 5)
      else l := by
  unfold dropExtremeRows
  by_cases h1 : l.length > 10
  · rw [if_pos h1, if_pos h1]
    dsimp only
    split_ifs with h2
    · rfl
    · have h0 : l.countP (fun r => decide (r.amount >
          pandasQuantile (999 / 1000) (l.map Row.amount) * 5)) = 0 := by
        omega
      rw [List.countP_eq_zero] at h0
      symm
      rw [List.filter_eq_self]
      intro r hr
      have hle := h0 r hr
      simp only [decide_eq_true_eq] at hle ⊢
      linarith [not_lt.mp hle]
  · rw [if_neg h1, if_neg h1]

/-- C5 counterexample: two distinct valid rows with amounts -10000 and 1.
The second amount exceeds five times the batch's 99.9th percentile, so the
claim's unconditional third step drops it; the code only applies that step
to batches of more than 10 rows and keeps both, refuting the claim at this
concrete input. -/
theorem C5_unconditional_third_step_counterexample :
    applyQualityFilters
      [⟨none, txt "A", txt "Unknown", -10000, 1, txt "X"⟩,
       ⟨none, txt "B", txt "Unknown", 1, 1, txt "X"⟩] =
      [⟨none, txt "A", txt "Unknown", -10000, 1, txt "X"⟩,
       ⟨none, txt "B", txt "Unknown", 1, 1, txt "X"⟩] ∧
    qualityFiltersSpec
      [⟨none, txt "A", txt "Unknown", -10000, 1, txt "X"⟩,
       ⟨none, txt "B", txt "Unknown", 1, 1, txt "X"⟩] =
      [⟨none, txt "A", txt "Unknown", -10000, 1, txt "X"⟩] ∧
    (1 : ℚ) > pandasQuantile (999 / 1000) [-10000, 1] * 5 := by
  refine ⟨rfl, ?_, by norm_num [pandasQuantile, sortAsc, insAsc]⟩
  norm_num [qualityFiltersSpec, dedupRows, pandasQuantile, sortAsc, insAsc,
    Row.mk.injEq, List.filter_cons]

/-- C5 (amended): on a normalized row set (whose products can no longer be
"", "Nan" or "None" - categorical normalization sent those to "Unknown"),
quality filtering equals: (1) drop rows with product "Unknown" and amount
exactly 0, then (2) drop exact full-row duplicates, then (3) only when more
than 10 rows remain, drop rows whose amount exceeds five times the 99.9th
percentile of the remaining amounts; removal is irreversible within the
call. -/
theorem C5_amended_quality_filters (rows : List Row)
    (hnorm : ∀ r ∈ rows, r.product ≠ txt "" ∧ r.product ≠ txt "Nan" ∧
      r.product ≠ txt "None") :
    applyQualityFilters rows = qualityFiltersAmended rows := by
  have h1 : dropInvalidRows rows =
      rows.filter (fun r => !(r.product == txt "Unknown" && r.amount == 0)) := by
    unfold dropInvalidRows
    apply List.filter_congr
    intro r hr
    obtain ⟨e1, e2, e3⟩ := hnorm r hr
    have : invalidProduct r = (r.product == txt "Unknown") := by
      rw [Bool.eq_iff_iff]
      simp [invalidProduct, e1, e2, e3]
    rw [this]
  unfold applyQualityFilters qualityFiltersAmended
  rw [h1, dropDuplicateRows_eq_dedup, dropExtremeRows_eq]

/-- C5 witness: on the two sample rows the full filter agrees with the
amended three-step description. -/
theorem C5_amended_quality_filters_witness :
    applyQualityFilters
      [⟨none, txt "C", txt "Unknown", 3, 1, txt "X"⟩,
       ⟨none, txt "D", txt "Unknown", 4, 1, txt "X"⟩] =
    qualityFiltersAmended
      [⟨none, txt "C", txt "Unknown", 3, 1, txt "X"⟩,
       ⟨none, txt "D", txt "Unknown", 4, 1, txt "X"⟩] :=
  C5_amended_quality_filters _ (by decide)

/-- Membership through stable descending insertion. -/
theorem mem_insDesc (x z : PyStr × ℚ) :
    ∀ l, z ∈ insDesc x l ↔ z = x ∨ z ∈ l := by
  intro l
  induction l with
  | nil => simp [insDesc]
  | cons y ys ih =>
    simp only [insDesc]
    split_ifs with h
    · simp [List.mem_cons]
    · simp only [List.mem_cons, ih]
      tauto

/-- Inserting an element that relates by `Q` to everything already sorted
preserves the combined strictly-greater-or-tie-ordered-by-`Q` invariant. -/
theorem pairwise_insDesc (Q : (PyStr × ℚ) → (PyStr × ℚ) → Prop)
    (x : PyStr × ℚ) :
    ∀ (l : List (PyStr × ℚ)),
      l.Pairwise (fun a b => b.2 < a.2 ∨ (a.2 = b.2 ∧ Q a b)) →
      (∀ y ∈ l, Q x y) →
      (insDesc x l).Pairwise (fun a b => b.2 < a.2 ∨ (a.2 = b.2 ∧ Q a b)) := by
  intro l
  induction l with
  | nil =>
    intro _ _
    simp [insDesc]
  | cons y ys ih =>
    intro hpw hQ
    rw [List.pairwise_cons] at hpw
    obtain ⟨hy, hys⟩ := hpw
    simp only [insDesc]
    split_ifs with h
    · refine List.Pairwise.cons ?_ (List.Pairwise.cons hy hys)
      intro z hz
      rcases List.mem_cons.mp hz with rfl | hz'
      · rcases lt_or_eq_of_le h with hlt | heq
        · exact Or.inl hlt
        · exact Or.inr ⟨heq.symm, hQ z (List.mem_cons_self _ _)⟩
      · rcases hy z hz' with hlt | ⟨heq, _⟩
        · exact Or.inl (lt_of_lt_of_le hlt h)
        · have hz2 : z.2 ≤ x.2 := heq ▸ h
          rcases lt_or_eq_of_le hz2 with hlt | heq2
          · exact Or.inl hlt
          · exact Or.inr ⟨heq2.symm, hQ z (List.mem_cons_of_mem _ hz')⟩
    · have hylt : x.2 < y.2 := lt_of_not_ge h
      refine List.Pairwise.cons ?_
        (ih hys (fun z hz => hQ z (List.mem_cons_of_mem _ hz)))
      intro z hz
      rcases (mem_insDesc x z ys).mp hz with rfl | hz'
      · exact Or.inl hylt
      · exact hy z hz'

/-- Membership through the stable sort. -/
theorem mem_sortSalesDesc (z : PyStr × ℚ) :
    ∀ l, z ∈ sortSalesDesc l ↔ z ∈ l := by
  intro l
  induction l with
  | nil => simp [sortSalesDesc]
  | cons x l ih =>
    show z ∈ insDesc x (sortSalesDesc l) ↔ _
    rw [mem_insDesc, ih]
    simp [List.mem_cons]

/-- Python's stable descending sort orders by total and, among equal totals,
keeps any relation `Q` that held pairwise on the input order. -/
theorem pairwise_sortSalesDesc (Q : (PyStr × ℚ) → (PyStr × ℚ) → Prop) :
    ∀ (l : List (PyStr × ℚ)), l.Pairwise Q →
      (sortSalesDesc l).Pairwise
        (fun a b => b.2 < a.2 ∨ (a.2 = b.2 ∧ Q a b)) := by
  intro l
  induction l with
  | nil =>
    intro _
    simp [sortSalesDesc]
  | cons x l ih =>
    intro hpw
    rw [List.pairwise_cons] at hpw
    obtain ⟨hx, hl⟩ := hpw
    show (insDesc x (sortSalesDesc l)).Pairwise _
    apply pairwise_insDesc
    · exact ih hl
    · intro y hy
      exact hx y ((mem_sortSalesDesc y l).mp hy)

/-- Insertion grows the length by one. -/
theorem length_insDesc (x : PyStr × ℚ) :
    ∀ l, (insDesc x l).length = l.length + 1 := by
  intro l
  induction l with
  | nil => rfl
  | cons y ys ih =>
    simp only [insDesc]
    split_ifs <;> simp [ih]

/-- The stable sort keeps the length. -/
theorem length_sortSalesDesc :
    ∀ l : List (PyStr × ℚ), (sortSalesDesc l).length = l.length := by
  intro l
  induction l with
  | nil => rfl
  | cons x l ih =>
    show (insDesc x (sortSalesDesc l)).length = _
    rw [length_insDesc, ih]
    rfl

/-- A product occurring in the prefix has its first occurrence inside it. -/
theorem firstOccur_lt_of_prefix (k : PyStr) :
    ∀ (pre suf : List Row), (∃ r ∈ pre, r.product = k) →
      firstOccur (pre ++ suf) k < pre.length := by
  intro pre
  induction pre with
  | nil =>
    rintro suf ⟨r, hr, _⟩
    cases hr
  | cons r0 pre' ih =>
    rintro suf ⟨r, hr, hk⟩
    by_cases h0 : r0.product = k
    · simp [firstOccur, List.cons_append, List.findIdx_cons, h0]
    · rcases List.mem_cons.mp hr with rfl | hr'
      · exact absurd hk h0
      · have := ih suf ⟨r, hr', hk⟩
        simp only [firstOccur, List.cons_append, List.findIdx_cons, h0,
          List.length_cons]
        simp only [firstOccur] at this
        simp [beq_eq_false_iff_ne.mpr h0]
        omega

/-- A product missing from the prefix first occurs past it. -/
theorem firstOccur_ge_of_prefix (k : PyStr) :
    ∀ (pre suf : List Row), (∀ r ∈ pre, r.product ≠ k) →
      pre.length ≤ firstOccur (pre ++ suf) k := by
  intro pre
  induction pre with
  | nil => intro suf _; exact Nat.zero_le _
  | cons r0 pre' ih =>
    intro suf hall
    have h0 : r0.product ≠ k := hall r0 (List.mem_cons_self _ _)
    have := ih suf (fun r hr => hall r (List.mem_cons_of_mem _ hr))
    simp only [firstOccur, List.cons_append, List.findIdx_cons,
      List.length_cons] at this ⊢
    simp [beq_eq_false_iff_ne.mpr h0]
    omega

/-- The first occurrence of the product of the row right after the prefix is
at most the prefix length. -/
theorem firstOccur_le_here (k : PyStr) :
    ∀ (pre : List Row) (r : Row) (suf : List Row), r.product = k →
      firstOccur (pre ++ r :: suf) k ≤ pre.length := by
  intro pre
  induction pre with
  | nil =>
    intro r suf hk
    simp [firstOccur, List.findIdx_cons, hk]
  | cons r0 pre' ih =>
    intro r suf hk
    by_cases h0 : r0.product = k
    · simp [firstOccur, List.cons_append, List.findIdx_cons, h0]
    · have := ih r suf hk
      simp only [firstOccur, List.cons_append, List.findIdx_cons,
        List.length_cons] at this ⊢
      simp [beq_eq_false_iff_ne.mpr h0]
      omega

/-- Bumping a product's total keeps the key column, appending the key when
it is new. -/
theorem keysOf_bumpSale (p : PyStr) (a : ℚ) :
    ∀ (d : List (PyStr × ℚ)),
      keysOf (bumpSale p a d) =
        if p ∈ keysOf d then keysOf d else keysOf d ++ [p] := by
  intro d
  induction d with
  | nil => simp [bumpSale, keysOf]
  | cons kv d ih =>
    obtain ⟨k, v⟩ := kv
    by_cases hk : k = p
    · subst hk
      simp [bumpSale, keysOf]
    · have hbf : (k == p) = false := beq_eq_false_iff_ne.mpr hk
      have hstep : bumpSale p a ((k, v) :: d) = (k, v) :: bumpSale p a d := by
        simp [bumpSale, hbf]
      rw [hstep]
      have hkeys : keysOf ((k, v) :: bumpSale p a d) =
          k :: keysOf (bumpSale p a d) := rfl
      have hkc : keysOf ((k, v) :: d) = k :: keysOf d := rfl
      rw [hkeys, ih, hkc]
      by_cases hp : p ∈ keysOf d
      · rw [if_pos hp, if_pos (List.mem_cons_of_mem _ hp)]
      · rw [if_neg hp, if_neg (fun hmem => by
          rcases List.mem_cons.mp hmem with h | h
          · exact hk h.symm
          · exact hp h)]
        rfl

/-- The key column of the running `product_sales` dict is the first-seen
fold of the products. -/
theorem keysOf_productSales_fold :
    ∀ (todo : List Row) (d : List (PyStr × ℚ)),
      keysOf (todo.foldl (fun d r => bumpSale r.product r.amount d) d) =
        seenFold (keysOf d) (todo.map Row.product) := by
  intro todo
  induction todo with
  | nil => intro d; rfl
  | cons r rest ih =>
    intro d
    simp only [List.foldl_cons, List.map_cons, seenFold]
    rw [ih, keysOf_bumpSale]
    by_cases hp : r.product ∈ keysOf d
    · rw [if_pos hp, if_pos hp]
    · rw [if_neg hp, if_neg hp]

/-- The first-seen fold lists products in strictly increasing order of their
first occurrence in the row data. -/
theorem seenFold_pairwise_firstOccur (data : List Row) :
    ∀ (todo pre : List Row) (seen : List PyStr),
      pre ++ todo = data →
      (∀ k ∈ seen, firstOccur data k < pre.length) →
      (∀ r ∈ pre, r.product ∈ seen) →
      seen.Pairwise (fun p q => firstOccur data p < firstOccur data q) →
      (seenFold seen (todo.map Row.product)).Pairwise
        (fun p q => firstOccur data p < firstOccur data q) := by
  intro todo
  induction todo with
  | nil =>
    intro pre seen _ _ _ hpw
    exact hpw
  | cons r rest ih =>
    intro pre seen hdata hlt hpre hpw
    have hdata' : (pre ++ [r]) ++ rest = data := by
      rw [List.append_assoc]
      exact hdata
    simp only [List.map_cons, seenFold]
    by_cases hp : r.product ∈ seen
    · rw [if_pos hp]
      refine ih (pre ++ [r]) seen hdata' ?_ ?_ hpw
      · intro k hk
        have := hlt k hk
        simp only [List.length_append, List.length_singleton]
        omega
      · intro r' hr'
        rcases List.mem_append.mp hr' with h | h
        · exact hpre r' h
        · rcases List.mem_singleton.mp h with rfl
          exact hp
    · rw [if_neg hp]
      have hnotpre : ∀ r' ∈ pre, r'.product ≠ r.product := by
        intro r' hr' hcontra
        exact hp (hcontra ▸ hpre r' hr')
      have hge : pre.length ≤ firstOccur data r.product := by
        rw [← hdata]
        exact firstOccur_ge_of_prefix r.product pre (r :: rest) hnotpre
      have hle : firstOccur data r.product ≤ pre.length := by
        rw [← hdata]
        exact firstOccur_le_here r.product pre r rest rfl
      refine ih (pre ++ [r]) (seen ++ [r.product]) hdata' ?_ ?_ ?_
      · intro k hk
        rcases List.mem_append.mp hk with h | h
        · have := hlt k h
          simp only [List.length_append, List.length_singleton]
          omega
        · rcases List.mem_singleton.mp h with rfl
          simp only [List.length_append, List.length_singleton]
          omega
      · intro r' hr'
        rcases List.mem_append.mp hr' with h | h
        · exact List.mem_append_left _ (hpre r' h)
        · rcases List.mem_singleton.mp h with rfl
          exact List.mem_append_right _ (List.mem_singleton_self _)
      · rw [List.pairwise_append]
        refine ⟨hpw, List.pairwise_singleton _ _, ?_⟩
        intro k hk q hq
        rcases List.mem_singleton.mp hq with rfl
        have := hlt k hk
        omega

/-- C7: the memory-path top-products list is sorted descending by
per-product summed amount, has at most 5 entries and at most one entry per
distinct product, and orders products with equal summed amounts by the
insertion order of each product's first occurrence in the row set (the
Python dict preserves first-occurrence key order and `sorted` is stable). -/
theorem C7_top_products_sorted (data : List Row) :
    (topProducts data).Pairwise (fun a b => b.2 ≤ a.2) ∧
    (topProducts data).Pairwise (fun a b => b.2 < a.2 ∨
      (a.2 = b.2 ∧ firstOccur data a.1 < firstOccur data b.1)) ∧
    (topProducts data).length ≤ 5 ∧
    (topProducts data).length ≤ distinctProducts data := by
  have hkeys : keysOf (productSales data) =
      seenFold [] (data.map Row.product) := by
    have h := keysOf_productSales_fold data []
    rw [productSales]
    exact h
  have hkpw : (keysOf (productSales data)).Pairwise
      (fun p q => firstOccur data p < firstOccur data q) := by
    rw [hkeys]
    refine seenFold_pairwise_firstOccur data data [] [] rfl ?_ ?_
      List.Pairwise.nil
    · intro k hk
      cases hk
    · intro r hr
      cases hr
  have hpspw : (productSales data).Pairwise
      (fun a b => firstOccur data a.1 < firstOccur data b.1) := by
    rw [keysOf] at hkpw
    exact List.Pairwise.of_map Prod.fst (fun a b h => h) hkpw
  have hsorted := pairwise_sortSalesDesc
    (fun a b => firstOccur data a.1 < firstOccur data b.1) _ hpspw
  have htake : (topProducts data).Pairwise (fun a b => b.2 < a.2 ∨
      (a.2 = b.2 ∧ firstOccur data a.1 < firstOccur data b.1)) :=
    List.Pairwise.sublist (List.take_sublist _ _) hsorted
  refine ⟨?_, htake, ?_, ?_⟩
  · apply htake.imp
    intro a b hab
    rcases hab with h | ⟨h, _⟩
    · exact le_of_lt h
    · exact le_of_eq h.symm
  · rw [topProducts, List.length_take]
    exact min_le_left _ _
  · have h1 : (topProducts data).length ≤
        (sortSalesDesc (productSales data)).length := by
      rw [topProducts, List.length_take]
      exact min_le_right _ _
    have h2 : (sortSalesDesc (productSales data)).length =
        (productSales data).length := length_sortSalesDesc _
    have h3 : (productSales data).length = distinctProducts data := by
      have : (keysOf (productSales data)).length =
          (productSales data).length := List.length_map _ _
      rw [distinctProducts, ← hkeys, this]
    omega
